import Mathlib

/-
Verification development for the localdocs repository (parse.py and
search_pkm.py): a directory-ingestion pipeline storing extracted text
in a relational table, and a full-text search front end over it.

The embedding is shallow: the Python functions are translated into
executable Lean functions.  External effects are made explicit:
  - file reads may fail (an I O error flag on the modelled file);
  - the byte-level UTF-8 decoder of the primary encoding is implemented
    in full (strict: rejects overlongs, surrogates, out-of-range code
    points, stray continuation bytes), and the latin-1 fallback decoder
    accepts every byte below 256, as the real codecs do;
  - the PDF library is modelled by the observations parse.py makes of it
    (encrypted flag, empty-password authentication, page texts, and the
    failure modes its except clauses distinguish);
  - the database table is a list of records, the unique-path ON CONFLICT
    insert is one atomic step on it, and a database-level statement
    failure is an explicit fault flag (the exception branch rolls the
    transaction back, leaving the table unchanged, and returns False).
-/

set_option autoImplicit false

namespace LocalDocs

/-! ## Text decoding (parse.py, extract_text_from_txt) -/

/-- Content of a decoded file: the sequence of Unicode code points. -/
abbrev Content := List Nat

/-- A UTF-8 continuation byte is in the range 0x80 to 0xBF. -/
def utf8Cont (b : Nat) : Bool := 0x80 ≤ b && b < 0xC0

/-- Strict UTF-8 decoder with structural fuel (each step consumes at
least one byte, so list length is enough fuel).  Mirrors the strict
codec used by the primary-encoding read in extract_text_from_txt:
rejects stray continuation bytes, overlong forms, surrogate code
points and code points above 0x10FFFF. -/
def utf8DecodeAux : Nat → List Nat → Option Content
  | _, [] => some []
  | 0, _ :: _ => none
  | fuel + 1, b :: rest =>
    if b < 0x80 then
      (utf8DecodeAux fuel rest).map (fun cps => b :: cps)
    else if b < 0xC2 then none
    else if b < 0xE0 then
      match rest with
      | c1 :: rest1 =>
        if utf8Cont c1 then
          (utf8DecodeAux fuel rest1).map
            (fun cps => ((b - 0xC0) * 0x40 + (c1 - 0x80)) :: cps)
        else none
      | [] => none
    else if b < 0xF0 then
      match rest with
      | c1 :: c2 :: rest2 =>
        if utf8Cont c1 && utf8Cont c2 then
          let cp := (b - 0xE0) * 0x1000 + (c1 - 0x80) * 0x40 + (c2 - 0x80)
          if cp < 0x800 then none
          else if 0xD800 ≤ cp && cp < 0xE000 then none
          else (utf8DecodeAux fuel rest2).map (fun cps => cp :: cps)
        else none
      | _ => none
    else if b < 0xF5 then
      match rest with
      | c1 :: c2 :: c3 :: rest3 =>
        if utf8Cont c1 && utf8Cont c2 && utf8Cont c3 then
          let cp := (b - 0xF0) * 0x40000 + (c1 - 0x80) * 0x1000
                      + (c2 - 0x80) * 0x40 + (c3 - 0x80)
          if cp < 0x10000 then none
          else if 0x110000 ≤ cp then none
          else (utf8DecodeAux fuel rest3).map (fun cps => cp :: cps)
        else none
      | _ => none
    else none

/-- Decode a byte sequence as strict UTF-8; none on any decode error. -/
def utf8Decode (bs : List Nat) : Option Content := utf8DecodeAux bs.length bs

/-- The latin-1 fallback decoder: every byte value below 256 maps to the
code point of the same value, so decoding never fails on real bytes. -/
def latin1Decode (bs : List Nat) : Option Content :=
  if bs.all (fun b => b < 256) then some bs else none

/-- A text file as extract_text_from_txt observes it: the raw bytes and
whether reading them succeeds at the I O level (open and read). -/
structure TxtFile where
  bytes : List Nat
  readable : Bool
deriving DecidableEq

/-- Translation of extract_text_from_txt: read decoded as UTF-8; on a
decode failure retry as latin-1; any I O failure, or both decodes
failing, yields the failure sentinel none. -/
def extract_text_from_txt (f : TxtFile) : Option Content :=
  if f.readable then
    match utf8Decode f.bytes with
    | some cps => some cps
    | none =>
      match latin1Decode f.bytes with
      | some cps => some cps
      | none => none
  else none

/-- Translation of extract_text_from_md: delegates to the txt extractor. -/
def extract_text_from_md (f : TxtFile) : Option Content :=
  extract_text_from_txt f

/-! ## PDF extraction (parse.py, extract_text_from_pdf) -/

/-- A PDF document as extract_text_from_pdf observes it through the
parsing library: encryption flag, whether the empty password
authenticates, and the text of each page in page order. -/
structure PdfDoc where
  encrypted : Bool
  emptyPasswordOk : Bool
  pages : List Content
deriving DecidableEq

/-- Outcome of opening a PDF, matching the except clauses of
extract_text_from_pdf: success, file not found, malformed file data,
or any other failure. -/
inductive PdfOpenResult where
  | ok (d : PdfDoc)
  | fileNotFound
  | fileDataError
  | otherFailure
deriving DecidableEq

/-- Translation of extract_text_from_pdf: an encrypted document that the
empty password does not authenticate is skipped (none); otherwise the
page texts are concatenated in page order; every open failure yields
none. -/
def extract_text_from_pdf : PdfOpenResult → Option Content
  | .ok d =>
    if d.encrypted && !d.emptyPasswordOk then none
    else some d.pages.flatten
  | .fileNotFound => none
  | .fileDataError => none
  | .otherFailure => none

/-! ## Record store (parse.py, setup_database and insert_file_data) -/

/-- One stored row of the extracted_files table (the id and timestamp
columns are database-generated and not observed by any claim). -/
structure Record where
  file_path : String
  file_extension : String
  content : Content
deriving DecidableEq

/-- The table contents. -/
abbrev DB := List Record

/-- Whether the table already holds a record with the given path. -/
def hasPath (db : DB) (p : String) : Bool :=
  db.any (fun r => r.file_path == p)

/-- Translation of insert_file_data.  The dbFault flag models a
database-level exception raised by the statement: the except branch
rolls the transaction back (table unchanged) and returns False.
Otherwise the single INSERT with ON CONFLICT (file_path) DO NOTHING is
one atomic step: rowcount 0 on an existing path (returns False, the
duplicate report), insertion otherwise (returns True). -/
def insert_file_data (db : DB) (path ext : String) (content : Content)
    (dbFault : Bool) : DB × Bool :=
  if dbFault then (db, false)
  else if hasPath db path then (db, false)
  else (db ++ [⟨path, ext, content⟩], true)

/-! ## Ingestion (parse.py, process_directory) -/

/-- The contents backing one directory entry, coupled with the
extension-dispatch of process_directory: a .txt file, a .md file, a
.pdf file, or a file whose extension is outside the supported set. -/
inductive FileData where
  | txt (f : TxtFile)
  | md (f : TxtFile)
  | pdf (r : PdfOpenResult)
  | other (ext : String)
deriving DecidableEq

/-- One file met by the directory walk: its path, its contents, and
whether the insertion statement for it hits a database-level fault. -/
structure SrcFile where
  path : String
  data : FileData
  dbFault : Bool
deriving DecidableEq

/-- The extractor dispatch of process_directory (unsupported extensions
are never extracted). -/
def extractContent : FileData → Option Content
  | .txt f => extract_text_from_txt f
  | .md f => extract_text_from_md f
  | .pdf r => extract_text_from_pdf r
  | .other _ => none

/-- The four counters of process_directory. -/
structure Counters where
  processed_count : Nat
  skipped_count : Nat
  error_count : Nat
  duplicate_count : Nat
deriving DecidableEq

/-- Handling of one supported file given its extraction outcome:
extraction failure increments the error counter; otherwise the insert
outcome routes to the processed or the duplicate counter. -/
def processSupported (st : DB × Counters) (path ext : String)
    (oc : Option Content) (fault : Bool) : DB × Counters :=
  match oc with
  | some content =>
    let res := insert_file_data st.1 path ext content fault
    if res.2 then
      (res.1, { st.2 with processed_count := st.2.processed_count + 1 })
    else
      (res.1, { st.2 with duplicate_count := st.2.duplicate_count + 1 })
  | none => (st.1, { st.2 with error_count := st.2.error_count + 1 })

/-- Handling of one directory entry, mirroring the per-file body of
process_directory (extension dispatch, then extraction, then insert). -/
def processFile (st : DB × Counters) (f : SrcFile) : DB × Counters :=
  match f.data with
  | .other _ => (st.1, { st.2 with skipped_count := st.2.skipped_count + 1 })
  | .txt t => processSupported st f.path ".txt" (extract_text_from_txt t) f.dbFault
  | .md t => processSupported st f.path ".md" (extract_text_from_md t) f.dbFault
  | .pdf r => processSupported st f.path ".pdf" (extract_text_from_pdf r) f.dbFault

/-- Translation of process_directory: a sequential fold over the walked
files starting from zeroed counters. -/
def process_directory (files : List SrcFile) (db : DB) : DB × Counters :=
  files.foldl processFile (db, ⟨0, 0, 0, 0⟩)

/-- A file is supported and extractable: its content is some. -/
def fileOk (f : SrcFile) : Bool := (extractContent f.data).isSome

/-! ## Search (search_pkm.py, search_documents) -/

/-- The supported extension set shared by both entry points. -/
def SUPPORTED_EXTENSIONS : List String := [".pdf", ".md", ".txt"]

/-- One table row as the full-text search statements observe it: for
each of the three per-language searchable representations, whether the
query matches it (the tsquery match), the rank ts_rank_cd assigns, and
the headline ts_headline would produce for that configuration.  Ranks
and match flags are determined by the stored content and the query; the
engine guarantees a non-matching rank of zero, stated where needed as a
hypothesis. -/
structure FtsRow where
  file_path : String
  file_extension : String
  matchEn : Bool
  rankEn : Int
  matchRu : Bool
  rankRu : Int
  matchSimple : Bool
  rankSimple : Int
  headlineEn : String
  headlineRu : String
  headlineSimple : String
deriving DecidableEq

/-- One row of the search result set. -/
structure SearchResult where
  file_path : String
  rank : Int
  headline : String
deriving DecidableEq

/-- The extension filter AND file_extension IN (...) of every mode. -/
def extAllowed (r : FtsRow) : Bool :=
  SUPPORTED_EXTENSIONS.contains r.file_extension

/-- WHERE clause of the english mode. -/
def keepEn (r : FtsRow) : Bool := r.matchEn && extAllowed r

/-- SELECT row of the english mode. -/
def rowEn (r : FtsRow) : SearchResult := ⟨r.file_path, r.rankEn, r.headlineEn⟩

/-- WHERE clause of the russian mode. -/
def keepRu (r : FtsRow) : Bool := r.matchRu && extAllowed r

/-- SELECT row of the russian mode. -/
def rowRu (r : FtsRow) : SearchResult := ⟨r.file_path, r.rankRu, r.headlineRu⟩

/-- WHERE clause of the simple mode. -/
def keepSimple (r : FtsRow) : Bool := r.matchSimple && extAllowed r

/-- SELECT row of the simple mode. -/
def rowSimple (r : FtsRow) : SearchResult :=
  ⟨r.file_path, r.rankSimple, r.headlineSimple⟩

/-- WHERE clause of the combined mode: either representation matches. -/
def keepBoth (r : FtsRow) : Bool := (r.matchEn || r.matchRu) && extAllowed r

/-- SELECT row of the combined mode: rank is the sum of the two
per-language ranks (COALESCE to zero never fires on non-null ranks) and
the headline is built from the english-configuration query. -/
def rowBoth (r : FtsRow) : SearchResult :=
  ⟨r.file_path, r.rankEn + r.rankRu, r.headlineEn⟩

/-- Rows produced by the english-mode statement before ordering. -/
def selectEn (t : List FtsRow) : List SearchResult := (t.filter keepEn).map rowEn

/-- Rows produced by the russian-mode statement before ordering. -/
def selectRu (t : List FtsRow) : List SearchResult := (t.filter keepRu).map rowRu

/-- Rows produced by the simple-mode statement before ordering. -/
def selectSimple (t : List FtsRow) : List SearchResult :=
  (t.filter keepSimple).map rowSimple

/-- Rows produced by the combined-mode statement before ordering. -/
def selectBoth (t : List FtsRow) : List SearchResult :=
  (t.filter keepBoth).map rowBoth

/-- Insertion into a list sorted by descending rank. -/
def insertRankDesc (x : SearchResult) : List SearchResult → List SearchResult
  | [] => [x]
  | y :: ys => if y.rank < x.rank then x :: y :: ys else y :: insertRankDesc x ys

/-- ORDER BY rank DESC. -/
def sortByRankDesc (l : List SearchResult) : List SearchResult :=
  l.foldr insertRankDesc []

/-- The language selectors search_documents accepts. -/
def validLanguages : List String := ["english", "russian", "both", "simple"]

/-- Per-language statement semantics: filter, project, order by rank
descending, LIMIT. -/
def runQuery (table : List FtsRow) (language : String) (limit : Nat) :
    List SearchResult :=
  let rows :=
    if language = "english" then selectEn table
    else if language = "russian" then selectRu table
    else if language = "simple" then selectSimple table
    else selectBoth table
  (sortByRankDesc rows).take limit

/-- Translation of search_documents.  First component: the return value
(none translates the Python None failure value, some rs a result list).
Second component: whether a database statement was executed (the
cur.execute call is reached).  An empty query returns the empty list
before anything else; an invalid language returns the failure value
before any query construction; the dbFault flag models a database error
raised by the executed statement, answered with the failure value. -/
def search_documents (table : List FtsRow) (query_string language : String)
    (limit : Nat) (dbFault : Bool) : Option (List SearchResult) × Bool :=
  if query_string = "" then (some [], false)
  else if language ∈ validLanguages then
    if dbFault then (none, true)
    else (some (runQuery table language limit), true)
  else (none, false)

/-! ## Search CLI (search_pkm.py, main block) -/

/-- What one invocation of the search CLI does after a successful
connection and setup (if requested). -/
inductive CliMode where
  | searchRun (q : String)
  | interactive
deriving DecidableEq

/-- Dispatch of the main block: a truthy query flag runs one search;
otherwise, when no setup flag was given either, the interactive loop is
entered; a setup flag alone does neither. -/
def cliDispatch (setupFlag : Bool) (query : String) : Option CliMode :=
  if query ≠ "" then some (.searchRun query)
  else if ¬ setupFlag then some .interactive
  else none

/-- One iteration of the interactive loop calls search only for a
non-empty input line; an empty line is skipped with continue. -/
def interactiveHandles (input : String) : Bool := input ≠ ""

/-- What the CLI prints for one search outcome. -/
inductive CliOutput where
  | resultsList (rs : List SearchResult)
  | noResults
  | searchFailed
deriving DecidableEq

/-- Result presentation of the main block: the failure value None prints
the error message, an empty list prints No results found, a non-empty
list is printed as ranked results. -/
def presentSearch : Option (List SearchResult) → CliOutput
  | none => .searchFailed
  | some [] => .noResults
  | some rs => .resultsList rs

/-! ## Derived predicates and concrete fixtures -/

/-- The uniqueness invariant of the table: no two records share a path. -/
def uniquePaths (db : DB) : Prop :=
  db.Pairwise (fun r s => r.file_path ≠ s.file_path)

/-- Fixture: a readable ASCII .txt file whose insertion statement raises
a database-level error. -/
def dbFaultFile : SrcFile := ⟨"docs/a.txt", .txt ⟨[104, 105], true⟩, true⟩

/-- Fixture: the scenario directory of the testable-properties section
of the design document: a readable a.txt, an encrypted b.pdf that the
empty password does not open, and a readable c.md. -/
def scenarioFiles : List SrcFile :=
  [⟨"docs/a.txt", .txt ⟨[104, 101, 108, 108, 111], true⟩, false⟩,
   ⟨"docs/b.pdf", .pdf (.ok ⟨true, false, [[104]]⟩), false⟩,
   ⟨"docs/c.md", .md ⟨[104, 105], true⟩, false⟩]

/-- Fixture: a one-row search table whose row matches the query in the
english representation only. -/
def enOnlyTable : List FtsRow :=
  [⟨"docs/a.txt", ".txt", true, 3, false, 0, false, 0, "h en", "h ru", "h si"⟩]

/-- Fixture: a one-row search table whose row matches the query in no
representation. -/
def noMatchTable : List FtsRow :=
  [⟨"docs/a.txt", ".txt", false, 0, false, 0, false, 0, "", "", ""⟩]

/-! ## Helper lemmas on the store and the ingestion fold -/

theorem hasPath_append (db : DB) (rec : Record) (q : String) :
    hasPath (db ++ [rec]) q = (hasPath db q || (rec.file_path == q)) := by
  simp [hasPath, List.any_append]

theorem hasPath_eq_false_iff (db : DB) (p : String) :
    hasPath db p = false ↔ ∀ r ∈ db, r.file_path ≠ p := by
  simp [hasPath]

theorem processSupported_fst (st : DB × Counters) (p e : String)
    (oc : Option Content) (fault : Bool) :
    (processSupported st p e oc fault).1
      = match oc with
        | some content => (insert_file_data st.1 p e content fault).1
        | none => st.1 := by
  cases oc with
  | none => rfl
  | some content =>
    simp only [processSupported]
    split <;> rfl

theorem hasPath_insert_mono (db : DB) (p e : String) (content : Content)
    (fault : Bool) (q : String) (h : hasPath db q = true) :
    hasPath (insert_file_data db p e content fault).1 q = true := by
  unfold insert_file_data
  split_ifs <;> simp [hasPath_append, h]

theorem hasPath_processFile_mono (st : DB × Counters) (f : SrcFile) (q : String)
    (h : hasPath st.1 q = true) : hasPath (processFile st f).1 q = true := by
  cases hdata : f.data with
  | other e => simpa [processFile, hdata] using h
  | txt t =>
    simp only [processFile, hdata, processSupported_fst]
    cases extract_text_from_txt t with
    | none => exact h
    | some content => exact hasPath_insert_mono _ _ _ _ _ _ h
  | md t =>
    simp only [processFile, hdata, processSupported_fst]
    cases extract_text_from_md t with
    | none => exact h
    | some content => exact hasPath_insert_mono _ _ _ _ _ _ h
  | pdf r =>
    simp only [processFile, hdata, processSupported_fst]
    cases extract_text_from_pdf r with
    | none => exact h
    | some content => exact hasPath_insert_mono _ _ _ _ _ _ h

theorem hasPath_foldl_mono (files : List SrcFile) :
    ∀ (st : DB × Counters) (q : String), hasPath st.1 q = true →
      hasPath (files.foldl processFile st).1 q = true := by
  induction files with
  | nil => intro st q h; simpa using h
  | cons f rest ih =>
    intro st q h
    simp only [List.foldl_cons]
    exact ih _ _ (hasPath_processFile_mono st f q h)

theorem uniquePaths_insert (db : DB) (p e : String) (content : Content)
    (fault : Bool) (h : uniquePaths db) :
    uniquePaths (insert_file_data db p e content fault).1 := by
  unfold insert_file_data
  split_ifs with h1 h2
  · exact h
  · exact h
  · refine List.pairwise_append.mpr ⟨h, List.pairwise_singleton _ _, ?_⟩
    intro a ha b hb
    simp only [List.mem_singleton] at hb
    subst hb
    exact (hasPath_eq_false_iff db p).mp (by simpa using h2) a ha

theorem uniquePaths_processFile (st : DB × Counters) (f : SrcFile)
    (h : uniquePaths st.1) : uniquePaths (processFile st f).1 := by
  cases hdata : f.data with
  | other e => simpa [processFile, hdata] using h
  | txt t =>
    simp only [processFile, hdata, processSupported_fst]
    cases extract_text_from_txt t with
    | none => exact h
    | some content => exact uniquePaths_insert _ _ _ _ _ h
  | md t =>
    simp only [processFile, hdata, processSupported_fst]
    cases extract_text_from_md t with
    | none => exact h
    | some content => exact uniquePaths_insert _ _ _ _ _ h
  | pdf r =>
    simp only [processFile, hdata, processSupported_fst]
    cases extract_text_from_pdf r with
    | none => exact h
    | some content => exact uniquePaths_insert _ _ _ _ _ h

theorem uniquePaths_foldl (files : List SrcFile) :
    ∀ st : DB × Counters, uniquePaths st.1 →
      uniquePaths (files.foldl processFile st).1 := by
  induction files with
  | nil => intro st h; simpa using h
  | cons f rest ih =>
    intro st h
    simp only [List.foldl_cons]
    exact ih _ (uniquePaths_processFile st f h)

theorem processFile_dup_step (db : DB) (c : Counters) (f : SrcFile)
    (hf : f.dbFault = false)
    (hp : fileOk f = true → hasPath db f.path = true) :
    (processFile (db, c) f).1 = db
    ∧ (processFile (db, c) f).2.processed_count = c.processed_count
    ∧ (processFile (db, c) f).2.duplicate_count
        = c.duplicate_count + (if fileOk f = true then 1 else 0) := by
  cases hdata : f.data with
  | other e => simp [processFile, hdata, fileOk, extractContent]
  | txt t =>
    cases hex : extract_text_from_txt t with
    | none => simp [processFile, hdata, processSupported, hex, fileOk, extractContent]
    | some content =>
      have hok : fileOk f = true := by simp [fileOk, hdata, extractContent, hex]
      have hpp := hp hok
      simp [processFile, hdata, processSupported, hex, insert_file_data, hf, hpp, hok]
  | md t =>
    cases hex : extract_text_from_md t with
    | none => simp [processFile, hdata, processSupported, hex, fileOk, extractContent]
    | some content =>
      have hok : fileOk f = true := by simp [fileOk, hdata, extractContent, hex]
      have hpp := hp hok
      simp [processFile, hdata, processSupported, hex, insert_file_data, hf, hpp, hok]
  | pdf r =>
    cases hex : extract_text_from_pdf r with
    | none => simp [processFile, hdata, processSupported, hex, fileOk, extractContent]
    | some content =>
      have hok : fileOk f = true := by simp [fileOk, hdata, extractContent, hex]
      have hpp := hp hok
      simp [processFile, hdata, processSupported, hex, insert_file_data, hf, hpp, hok]

theorem processFile_fresh_step (db : DB) (c : Counters) (f : SrcFile)
    (hf : f.dbFault = false)
    (hp : fileOk f = true → hasPath db f.path = false) :
    (processFile (db, c) f).2.processed_count
        = c.processed_count + (if fileOk f = true then 1 else 0)
    ∧ (processFile (db, c) f).2.duplicate_count = c.duplicate_count
    ∧ ∀ q, hasPath (processFile (db, c) f).1 q
        = (hasPath db q || (fileOk f && (f.path == q))) := by
  cases hdata : f.data with
  | other e => simp [processFile, hdata, fileOk, extractContent]
  | txt t =>
    cases hex : extract_text_from_txt t with
    | none => simp [processFile, hdata, processSupported, hex, fileOk, extractContent]
    | some content =>
      have hok : fileOk f = true := by simp [fileOk, hdata, extractContent, hex]
      have hpp := hp hok
      simp [processFile, hdata, processSupported, hex, insert_file_data, hf, hpp, hok,
        hasPath_append]
  | md t =>
    cases hex : extract_text_from_md t with
    | none => simp [processFile, hdata, processSupported, hex, fileOk, extractContent]
    | some content =>
      have hok : fileOk f = true := by simp [fileOk, hdata, extractContent, hex]
      have hpp := hp hok
      simp [processFile, hdata, processSupported, hex, insert_file_data, hf, hpp, hok,
        hasPath_append]
  | pdf r =>
    cases hex : extract_text_from_pdf r with
    | none => simp [processFile, hdata, processSupported, hex, fileOk, extractContent]
    | some content =>
      have hok : fileOk f = true := by simp [fileOk, hdata, extractContent, hex]
      have hpp := hp hok
      simp [processFile, hdata, processSupported, hex, insert_file_data, hf, hpp, hok,
        hasPath_append]

theorem foldl_dup_run (files : List SrcFile) :
    ∀ (db : DB) (c : Counters),
      (∀ f ∈ files, f.dbFault = false) →
      (∀ f ∈ files, fileOk f = true → hasPath db f.path = true) →
      (files.foldl processFile (db, c)).1 = db
      ∧ (files.foldl processFile (db, c)).2.processed_count = c.processed_count
      ∧ (files.foldl processFile (db, c)).2.duplicate_count
          = c.duplicate_count + (files.filter fileOk).length := by
  induction files with
  | nil => intro db c _ _; simp
  | cons f rest ih =>
    intro db c hnf hp
    obtain ⟨h1, h2, h3⟩ := processFile_dup_step db c f
      (hnf f (List.mem_cons_self f rest)) (hp f (List.mem_cons_self f rest))
    simp only [List.foldl_cons]
    set st := processFile (db, c) f with hst
    obtain ⟨g1, g2, g3⟩ := ih st.1 st.2
      (fun g hg => hnf g (List.mem_cons_of_mem f hg))
      (fun g hg hok => by rw [h1]; exact hp g (List.mem_cons_of_mem f hg) hok)
    have hpair : (st.1, st.2) = st := rfl
    rw [hpair] at g1 g2 g3
    refine ⟨by rw [g1, h1], by rw [g2, h2], ?_⟩
    rw [g3, h3]
    by_cases hok : fileOk f = true
    · simp only [List.filter_cons, hok, if_true, List.length_cons]
      omega
    · simp only [List.filter_cons, hok, if_false]
      simp [hok]

theorem foldl_fresh_run (files : List SrcFile) :
    ∀ (db : DB) (c : Counters),
      (∀ f ∈ files, f.dbFault = false) →
      (files.map SrcFile.path).Nodup →
      (∀ f ∈ files, fileOk f = true → hasPath db f.path = false) →
      (files.foldl processFile (db, c)).2.processed_count
          = c.processed_count + (files.filter fileOk).length
      ∧ (files.foldl processFile (db, c)).2.duplicate_count = c.duplicate_count
      ∧ ∀ f ∈ files, fileOk f = true →
          hasPath (files.foldl processFile (db, c)).1 f.path = true := by
  induction files with
  | nil => intro db c _ _ _; simp
  | cons f rest ih =>
    intro db c hnf hnd hp
    obtain ⟨h1, h2, h3⟩ := processFile_fresh_step db c f
      (hnf f (List.mem_cons_self f rest)) (hp f (List.mem_cons_self f rest))
    simp only [List.foldl_cons]
    set st := processFile (db, c) f with hst
    have hnd2 : (f.path :: rest.map SrcFile.path).Nodup := by simpa using hnd
    have hfnotin : f.path ∉ rest.map SrcFile.path := (List.nodup_cons.mp hnd2).1
    have hnd' : (rest.map SrcFile.path).Nodup := (List.nodup_cons.mp hnd2).2
    have hp' : ∀ g ∈ rest, fileOk g = true → hasPath st.1 g.path = false := by
      intro g hg hok
      rw [h3 g.path]
      have hne : (f.path == g.path) = false := by
        rw [beq_eq_false_iff_ne]
        intro hEq
        exact hfnotin (hEq ▸ List.mem_map_of_mem SrcFile.path hg)
      simp [hp g (List.mem_cons_of_mem f hg) hok, hne]
    obtain ⟨g1, g2, g3⟩ := ih st.1 st.2
      (fun g hg => hnf g (List.mem_cons_of_mem f hg)) hnd' hp'
    have hpair : (st.1, st.2) = st := rfl
    rw [hpair] at g1 g2 g3
    refine ⟨?_, by rw [g2, h2], ?_⟩
    · rw [g1, h1]
      by_cases hok : fileOk f = true
      · simp only [List.filter_cons, hok, if_true, List.length_cons]
        omega
      · simp only [List.filter_cons, hok, if_false]
        simp [hok]
    · intro g hg hok
      rcases List.mem_cons.mp hg with rfl | hg'
      · refine hasPath_foldl_mono rest st g.path ?_
        rw [h3]
        simp [hok]
      · exact g3 g hg' hok

/-! ## Helper lemmas on the search model -/

theorem mem_insertRankDesc (x a : SearchResult) (l : List SearchResult) :
    a ∈ insertRankDesc x l ↔ a = x ∨ a ∈ l := by
  induction l with
  | nil => simp [insertRankDesc]
  | cons y ys ih =>
    simp only [insertRankDesc]
    split
    · simp [List.mem_cons]
    · simp only [List.mem_cons, ih]
      tauto

theorem mem_sortByRankDesc (a : SearchResult) (l : List SearchResult) :
    a ∈ sortByRankDesc l ↔ a ∈ l := by
  induction l with
  | nil => simp [sortByRankDesc]
  | cons y ys ih =>
    simp only [sortByRankDesc, List.foldr_cons] at *
    rw [mem_insertRankDesc, ih, List.mem_cons]

theorem runQuery_no_match (table : List FtsRow) (language : String) (limit : Nat)
    (hnone : ∀ r ∈ table,
      r.matchEn = false ∧ r.matchRu = false ∧ r.matchSimple = false) :
    runQuery table language limit = [] := by
  have hEn : table.filter keepEn = [] := List.filter_eq_nil_iff.mpr fun r hr => by
    simp [keepEn, (hnone r hr).1]
  have hRu : table.filter keepRu = [] := List.filter_eq_nil_iff.mpr fun r hr => by
    simp [keepRu, (hnone r hr).2.1]
  have hSi : table.filter keepSimple = [] := List.filter_eq_nil_iff.mpr fun r hr => by
    simp [keepSimple, (hnone r hr).2.2]
  have hBo : table.filter keepBoth = [] := List.filter_eq_nil_iff.mpr fun r hr => by
    simp [keepBoth, (hnone r hr).1, (hnone r hr).2.1]
  unfold runQuery
  split_ifs <;>
    simp [selectEn, selectRu, selectSimple, selectBoth, hEn, hRu, hSi, hBo, sortByRankDesc]

/-! ## Claim theorems -/

/-- C7: calling search with an empty query string returns the empty
result immediately, and no database statement is executed, whatever the
table, the language selector, the limit and the connection state. -/
theorem empty_query_no_statement (table : List FtsRow) (language : String)
    (limit : Nat) (dbFault : Bool) :
    search_documents table "" language limit dbFault = (some [], false) := by
  simp [search_documents]

/-- C8: a language selector outside the supported set is rejected with
no statement executed; for a non-empty query the caller receives the
failure value none, and in every case the outcome is the failure value
or the empty list, never a database execution. -/
theorem invalid_language_rejected (table : List FtsRow) (q language : String)
    (limit : Nat) (dbFault : Bool) (hlang : language ∉ validLanguages) :
    (search_documents table q language limit dbFault).2 = false
    ∧ ((search_documents table q language limit dbFault).1 = none
        ∨ (search_documents table q language limit dbFault).1 = some [])
    ∧ (q ≠ "" → search_documents table q language limit dbFault = (none, false)) := by
  by_cases hq : q = ""
  · subst hq
    simp [search_documents]
  · simp [search_documents, hq, hlang]

/-- C8 witness at a concrete unsupported selector. -/
theorem invalid_language_rejected_witness :
    search_documents enOnlyTable "hello" "german" 10 false = (none, false) :=
  (invalid_language_rejected enOnlyTable "hello" "german" 10 false
    (by decide)).2.2 (by decide)

/-- C4: extraction of a .txt or .md file decodes the bytes as UTF-8
first; on a UTF-8 decode failure it retries as latin-1, so a readable
file that is not valid UTF-8 is still extracted (non-null content, the
latin-1 decoding of its bytes); the md extractor is the txt extractor;
the failure sentinel occurs only when the read fails or both decodes
fail; and an extraction failure only increments the error counter of
the run, which continues. -/
theorem txt_fallback_extraction (f : TxtFile) :
    (∀ cps, f.readable = true → utf8Decode f.bytes = some cps →
       extract_text_from_txt f = some cps)
    ∧ (f.readable = true → utf8Decode f.bytes = none →
       (∀ b ∈ f.bytes, b < 256) → extract_text_from_txt f = some f.bytes)
    ∧ extract_text_from_md f = extract_text_from_txt f
    ∧ (extract_text_from_txt f = none ↔
        f.readable = false
          ∨ (utf8Decode f.bytes = none ∧ latin1Decode f.bytes = none))
    ∧ (∀ (p : String) (fault : Bool) (db : DB) (c : Counters),
        extract_text_from_txt f = none →
        processFile (db, c) ⟨p, .txt f, fault⟩
          = (db, { c with error_count := c.error_count + 1 })) := by
  refine ⟨?_, ?_, rfl, ?_, ?_⟩
  · intro cps hr hu
    simp [extract_text_from_txt, hr, hu]
  · intro hr hu hb
    have hl : latin1Decode f.bytes = some f.bytes := by
      unfold latin1Decode
      rw [if_pos]
      exact List.all_eq_true.mpr fun b hbm => by simpa using hb b hbm
    simp [extract_text_from_txt, hr, hu, hl]
  · cases hr : f.readable with
    | false => simp [extract_text_from_txt, hr]
    | true =>
      cases hu : utf8Decode f.bytes with
      | some cps => simp [extract_text_from_txt, hr, hu]
      | none =>
        cases hl : latin1Decode f.bytes with
        | some cps => simp [extract_text_from_txt, hr, hu, hl]
        | none => simp [extract_text_from_txt, hr, hu, hl]
  · intro p fault db c hnone
    simp [processFile, processSupported, hnone]

/-- C4 witness: the byte 0xFF is invalid UTF-8 but extracts via the
latin-1 fallback. -/
theorem txt_fallback_extraction_witness :
    extract_text_from_txt ⟨[255], true⟩ = some [255] :=
  (txt_fallback_extraction ⟨[255], true⟩).2.1 rfl (by decide) (by decide)

/-- C10: the latin-1 fallback decoder accepts every sequence of real
bytes, so extraction of a .txt or .md file whose bytes were read
without an I O error never returns the failure sentinel: the both-fail
branch is reachable only through a failed read. -/
theorem latin1_accepts_all_bytes (f : TxtFile) (bs : List Nat) :
    ((∀ b ∈ bs, b < 256) → latin1Decode bs = some bs)
    ∧ (f.readable = true → (∀ b ∈ f.bytes, b < 256) →
        (extract_text_from_txt f).isSome = true)
    ∧ ((∀ b ∈ f.bytes, b < 256) → extract_text_from_txt f = none →
        f.readable = false) := by
  have hlat : ∀ cs : List Nat, (∀ b ∈ cs, b < 256) → latin1Decode cs = some cs := by
    intro cs hb
    unfold latin1Decode
    rw [if_pos]
    exact List.all_eq_true.mpr fun b hbm => by simpa using hb b hbm
  refine ⟨hlat bs, ?_, ?_⟩
  · intro hr hb
    cases hu : utf8Decode f.bytes with
    | some cps => simp [extract_text_from_txt, hr, hu]
    | none => simp [extract_text_from_txt, hr, hu, hlat f.bytes hb]
  · intro hb hnone
    by_contra hr
    have hr' : f.readable = true := by simpa using hr
    cases hu : utf8Decode f.bytes with
    | some cps => simp [extract_text_from_txt, hr', hu] at hnone
    | none => simp [extract_text_from_txt, hr', hu, hlat f.bytes hb] at hnone

/-- C10 witness: a byte sequence invalid as UTF-8 still decodes as
latin-1 and extracts. -/
theorem latin1_accepts_all_bytes_witness :
    latin1Decode [0, 255] = some [0, 255]
    ∧ (extract_text_from_txt ⟨[255], true⟩).isSome = true :=
  ⟨(latin1_accepts_all_bytes ⟨[255], true⟩ [0, 255]).1 (by decide),
   (latin1_accepts_all_bytes ⟨[255], true⟩ [0, 255]).2.1 rfl (by decide)⟩

/-- C5: PDF extraction skips (failure sentinel, no crash) an encrypted
document that the empty password does not authenticate; otherwise it
returns the page texts concatenated in page order; a malformed or
unreadable document also yields the failure sentinel; and a failed PDF
extraction only increments the error counter of the run, leaving the
store unchanged, so subsequent files are still processed. -/
theorem pdf_extraction_spec (d : PdfDoc) (p : String) (fault : Bool)
    (r : PdfOpenResult) (db : DB) (c : Counters) :
    (d.encrypted = true → d.emptyPasswordOk = false →
       extract_text_from_pdf (.ok d) = none)
    ∧ (d.encrypted = false ∨ d.emptyPasswordOk = true →
       extract_text_from_pdf (.ok d) = some d.pages.flatten)
    ∧ (extract_text_from_pdf .fileNotFound = none
       ∧ extract_text_from_pdf .fileDataError = none
       ∧ extract_text_from_pdf .otherFailure = none)
    ∧ (extract_text_from_pdf r = none →
       processFile (db, c) ⟨p, .pdf r, fault⟩
         = (db, { c with error_count := c.error_count + 1 })) := by
  refine ⟨?_, ?_, ⟨rfl, rfl, rfl⟩, ?_⟩
  · intro he ha
    simp [extract_text_from_pdf, he, ha]
  · intro h
    rcases h with h | h <;> simp [extract_text_from_pdf, h]
  · intro hnone
    simp [processFile, processSupported, hnone]

/-- C5 witness: an encrypted document without a working empty password
is skipped; an open document concatenates its pages in order; the
malformed-file outcome counts as an error and the run state is
otherwise untouched. -/
theorem pdf_extraction_spec_witness :
    extract_text_from_pdf (.ok ⟨true, false, [[7]]⟩) = none
    ∧ extract_text_from_pdf (.ok ⟨false, false, [[1, 2], [3]]⟩) = some [1, 2, 3]
    ∧ processFile ([], ⟨0, 0, 0, 0⟩) ⟨"docs/b.pdf", .pdf .fileDataError, false⟩
        = ([], ⟨0, 0, 1, 0⟩) :=
  ⟨(pdf_extraction_spec ⟨true, false, [[7]]⟩ "docs/b.pdf" false .fileDataError []
      ⟨0, 0, 0, 0⟩).1 rfl rfl,
   (pdf_extraction_spec ⟨false, false, [[1, 2], [3]]⟩ "docs/b.pdf" false
      .fileDataError [] ⟨0, 0, 0, 0⟩).2.1 (Or.inl rfl),
   (pdf_extraction_spec ⟨true, false, [[7]]⟩ "docs/b.pdf" false .fileDataError []
      ⟨0, 0, 0, 0⟩).2.2.2 rfl⟩

/-- C1 counterexample: a single readable .txt file whose insertion
statement raises a database-level error is counted under the duplicate
counter, not the errored counter (the store is rolled back unchanged),
refuting the claim that such a file lands in the distinct errored
counter. -/
theorem dberror_counted_as_duplicate_cx :
    (process_directory [dbFaultFile] []).2.error_count = 0
    ∧ (process_directory [dbFaultFile] []).2.duplicate_count = 1
    ∧ (process_directory [dbFaultFile] []).1 = [] := by decide

/-- C1 amended: a database-level insertion error does not abort the run
and the transaction is rolled back (the store is unchanged, so the
connection stays usable for the remaining files, which are processed by
the same fold), but the file is counted under the skipped-as-duplicate
counter: the boolean result of insert_file_data conflates a database
error with a duplicate. -/
theorem dberror_rollback_and_continue (f : SrcFile) (db : DB) (c : Counters)
    (content : Content) (hfault : f.dbFault = true)
    (hc : extractContent f.data = some content) :
    processFile (db, c) f
        = (db, { c with duplicate_count := c.duplicate_count + 1 })
    ∧ ∀ rest, process_directory (f :: rest) db
        = rest.foldl processFile (db, ⟨0, 0, 0, 1⟩) := by
  have key : ∀ c' : Counters, processFile (db, c') f
      = (db, { c' with duplicate_count := c'.duplicate_count + 1 }) := by
    intro c'
    cases hdata : f.data with
    | other e =>
      rw [hdata] at hc
      simp [extractContent] at hc
    | txt t =>
      rw [hdata] at hc
      simp only [extractContent] at hc
      simp [processFile, hdata, processSupported, hc, insert_file_data, hfault]
    | md t =>
      rw [hdata] at hc
      simp only [extractContent] at hc
      simp [processFile, hdata, processSupported, hc, insert_file_data, hfault]
    | pdf r =>
      rw [hdata] at hc
      simp only [extractContent] at hc
      simp [processFile, hdata, processSupported, hc, insert_file_data, hfault]
  refine ⟨key c, fun rest => ?_⟩
  simp only [process_directory, List.foldl_cons]
  rw [key ⟨0, 0, 0, 0⟩]

/-- C1 witness for the amended statement at a concrete faulted file. -/
theorem dberror_rollback_and_continue_witness :
    processFile ([], ⟨0, 0, 0, 0⟩) dbFaultFile = ([], ⟨0, 0, 0, 1⟩) :=
  (dberror_rollback_and_continue dbFaultFile [] ⟨0, 0, 0, 0⟩ [104, 105]
    rfl (by decide)).1

/-- C2: inserting a path that is already stored is a no-op reporting the
duplicate outcome (False, rowcount 0) through the single atomic
conflict-resolving insert, with no separate existence check; the
per-path uniqueness invariant is preserved by every insert, faulted or
not, and by every ingestion run, so at most one record ever holds a
given path. -/
theorem insert_if_absent_unique (db : DB) (p e : String) (content : Content) :
    (hasPath db p = true → insert_file_data db p e content false = (db, false))
    ∧ (∀ fault, uniquePaths db →
        uniquePaths (insert_file_data db p e content fault).1)
    ∧ (∀ files, uniquePaths db → uniquePaths (process_directory files db).1) := by
  refine ⟨?_, ?_, ?_⟩
  · intro h
    simp [insert_file_data, h]
  · intro fault h
    exact uniquePaths_insert db p e content fault h
  · intro files h
    simp only [process_directory]
    exact uniquePaths_foldl files (db, ⟨0, 0, 0, 0⟩) h

/-- C2 witness: re-inserting an already-stored path leaves the store
unchanged and reports the duplicate outcome. -/
theorem insert_if_absent_unique_witness :
    insert_file_data [⟨"docs/a.txt", ".txt", [104]⟩] "docs/a.txt" ".txt" [105] false
      = ([⟨"docs/a.txt", ".txt", [104]⟩], false) :=
  (insert_if_absent_unique [⟨"docs/a.txt", ".txt", [104]⟩] "docs/a.txt" ".txt"
    [105]).1 (by decide)

/-- C3: in combined mode the executed statement filters to rows matched
by either language representation (a non-match in one language does not
exclude a row matched in the other), scores each row by the sum of the
english and russian ranks where a non-matching language contributes
zero, builds the headline from the english-configuration query, and
every returned row arises from such a table row. -/
theorem combined_mode_rank_sum (table : List FtsRow) (q : String) (limit : Nat)
    (hq : q ≠ "")
    (hEn : ∀ r ∈ table, r.matchEn = false → r.rankEn = 0)
    (hRu : ∀ r ∈ table, r.matchRu = false → r.rankRu = 0) :
    search_documents table q "both" limit false
      = (some ((sortByRankDesc (selectBoth table)).take limit), true)
    ∧ (∀ r ∈ table, keepBoth r = true → rowBoth r ∈ selectBoth table)
    ∧ (∀ r : FtsRow, r.matchEn = false → r.matchRu = false → keepBoth r = false)
    ∧ (∀ r ∈ table, keepBoth r = true →
        rowBoth r = ⟨r.file_path,
          (if r.matchEn then r.rankEn else 0)
            + (if r.matchRu then r.rankRu else 0),
          r.headlineEn⟩)
    ∧ (∀ res ∈ (sortByRankDesc (selectBoth table)).take limit,
        ∃ r ∈ table, keepBoth r = true ∧ res = rowBoth r) := by
  refine ⟨?_, ?_, ?_, ?_, ?_⟩
  · simp [search_documents, hq, validLanguages, runQuery]
  · intro r hr hk
    exact List.mem_map_of_mem _ (List.mem_filter.mpr ⟨hr, hk⟩)
  · intro r hme hmr
    simp [keepBoth, hme, hmr]
  · intro r hr hk
    cases hme : r.matchEn with
    | false =>
      cases hmr : r.matchRu with
      | false => simp [keepBoth, hme, hmr] at hk
      | true => simp [rowBoth, hme, hmr, hEn r hr hme]
    | true =>
      cases hmr : r.matchRu with
      | false => simp [rowBoth, hme, hmr, hRu r hr hmr]
      | true => simp [rowBoth, hme, hmr]
  · intro res hres
    have hmem : res ∈ sortByRankDesc (selectBoth table) :=
      List.take_subset _ _ hres
    rw [mem_sortByRankDesc] at hmem
    obtain ⟨r, hrf, hre⟩ := List.mem_map.mp hmem
    obtain ⟨hrt, hkeep⟩ := List.mem_filter.mp hrf
    exact ⟨r, hrt, hkeep, hre.symm⟩

/-- C3 witness at a one-row table matching only in english. -/
theorem combined_mode_rank_sum_witness :
    search_documents enOnlyTable "hello" "both" 10 false
      = (some ((sortByRankDesc (selectBoth enOnlyTable)).take 10), true) :=
  (combined_mode_rank_sum enOnlyTable "hello" 10 (by decide) (by decide)
    (by decide)).1

/-- C6: ingesting the same file list twice into a fresh store, with no
database faults and the distinct paths a directory walk yields, leaves
the store after the second run equal to the store after the first, the
second duplicate counter equal to the first inserted counter, and the
second inserted counter zero. -/
theorem ingest_twice_idempotent (files : List SrcFile)
    (hnodup : (files.map SrcFile.path).Nodup)
    (hnf : ∀ f ∈ files, f.dbFault = false) :
    (process_directory files (process_directory files []).1).1
        = (process_directory files []).1
    ∧ (process_directory files (process_directory files []).1).2.duplicate_count
        = (process_directory files []).2.processed_count
    ∧ (process_directory files (process_directory files []).1).2.processed_count
        = 0 := by
  simp only [process_directory]
  obtain ⟨h1, h2, h3⟩ :=
    foldl_fresh_run files [] ⟨0, 0, 0, 0⟩ hnf hnodup (fun f _ _ => rfl)
  obtain ⟨g1, g2, g3⟩ :=
    foldl_dup_run files (files.foldl processFile ([], ⟨0, 0, 0, 0⟩)).1
      ⟨0, 0, 0, 0⟩ hnf h3
  refine ⟨g1, ?_, g2⟩
  rw [g3, h1]

/-- C6 witness at the scenario directory (a.txt, encrypted b.pdf, c.md). -/
theorem ingest_twice_idempotent_witness :
    (process_directory scenarioFiles
        (process_directory scenarioFiles []).1).2.duplicate_count
      = (process_directory scenarioFiles []).2.processed_count
    ∧ (process_directory scenarioFiles
        (process_directory scenarioFiles []).1).2.processed_count = 0 :=
  ⟨(ingest_twice_idempotent scenarioFiles (by decide) (by decide)).2.1,
   (ingest_twice_idempotent scenarioFiles (by decide) (by decide)).2.2⟩

/-- C9 counterexample: the CLI never passes an empty query string to the
search function, so it does not present an empty query as No results
found: an empty query flag routes the main block to interactive mode
(or to nothing when only setup ran), and the interactive loop skips an
empty input line without searching. -/
theorem empty_query_cli_cx :
    cliDispatch false "" = some CliMode.interactive
    ∧ cliDispatch true "" = none
    ∧ interactiveHandles "" = false := by decide

/-- C9 amended: search_documents returns the same value, an empty list,
for a rejected empty query as for a successful search matching no
records, while an invalid language selector and a database execution
error both return the distinct failure value none; the result
presentation maps the empty list to the No-results output, so any
caller of search_documents through it cannot distinguish the two; the
CLI itself, however, never passes an empty query through (a falsy query
flag routes to interactive mode and interactive mode skips empty
input). -/
theorem empty_query_vs_zero_matches (table : List FtsRow)
    (q language badLanguage : String) (limit : Nat)
    (hlang : language ∈ validLanguages) (hbad : badLanguage ∉ validLanguages)
    (hq : q ≠ "")
    (hnone : ∀ r ∈ table,
      r.matchEn = false ∧ r.matchRu = false ∧ r.matchSimple = false) :
    search_documents table "" language limit false = (some [], false)
    ∧ search_documents table q language limit false = (some [], true)
    ∧ search_documents table q badLanguage limit false = (none, false)
    ∧ search_documents table q language limit true = (none, true)
    ∧ presentSearch (search_documents table "" language limit false).1
        = presentSearch (search_documents table q language limit false).1
    ∧ presentSearch none = CliOutput.searchFailed
    ∧ cliDispatch false "" = some CliMode.interactive
    ∧ interactiveHandles "" = false := by
  have hempty : search_documents table "" language limit false
      = (some [], false) := by
    simp [search_documents]
  have hmatchless : search_documents table q language limit false
      = (some [], true) := by
    unfold search_documents
    rw [if_neg hq, if_pos hlang, if_neg (by simp),
      runQuery_no_match table language limit hnone]
  refine ⟨hempty, hmatchless, ?_, ?_, ?_, rfl, by decide, by decide⟩
  · unfold search_documents
    rw [if_neg hq, if_neg hbad]
  · unfold search_documents
    rw [if_neg hq, if_pos hlang, if_pos rfl]
  · rw [hempty, hmatchless]

/-- C9 witness for the amended statement at a concrete matchless table. -/
theorem empty_query_vs_zero_matches_witness :
    search_documents noMatchTable "" "english" 10 false = (some [], false)
    ∧ search_documents noMatchTable "hello" "english" 10 false
        = (some [], true) :=
  ⟨(empty_query_vs_zero_matches noMatchTable "hello" "english" "german" 10
      (by decide) (by decide) (by decide) (by decide)).1,
   (empty_query_vs_zero_matches noMatchTable "hello" "english" "german" 10
      (by decide) (by decide) (by decide) (by decide)).2.1⟩

end LocalDocs
